import Mathlib

/-
Verification of the scout-by-hvm job pipeline core (scripts/utils.py,
scripts/config.py, scripts/scrape_jobs.py, scripts/update_stats.py).

Python strings are modelled as lists of Unicode codepoints (List Nat);
string operations (lower, strip, substring containment, utf-8 encoding)
are modelled on the ASCII range, which covers all configured keywords and
all inputs appearing in the claims.  Python dicts are modelled as
insertion-ordered association lists, matching CPython semantics: updating
an existing key keeps its position, inserting a fresh key appends.
-/

namespace Scout

/-- A Python string, as its list of Unicode codepoints. -/
abbrev PyStr := List Nat

/-- Codepoint list of a Lean string literal. -/
def pyOfString (s : String) : PyStr := s.data.map Char.toNat

/-- The str.lower() of one codepoint, on the ASCII range. -/
def lowerCP (n : Nat) : Nat := if 65 ≤ n ∧ n ≤ 90 then n + 32 else n

/-- The str.lower() of a whole string. -/
def pyLower (s : PyStr) : PyStr := s.map lowerCP

/-- Whitespace codepoints stripped by str.strip(), on the ASCII range. -/
def isSpaceCP (n : Nat) : Bool :=
  n == 32 || n == 9 || n == 10 || n == 11 || n == 12 || n == 13

/-- The str.strip() of a string: drop leading and trailing whitespace. -/
def pyStrip (s : PyStr) : PyStr :=
  ((s.dropWhile isSpaceCP).reverse.dropWhile isSpaceCP).reverse

/-- Whether the second string starts with the first one. -/
def startsWithCP : PyStr → PyStr → Bool
  | [], _ => true
  | _ :: _, [] => false
  | a :: as, b :: bs => a == b && startsWithCP as bs

/-- Python substring containment, needle in haystack. -/
def pyIn (needle : PyStr) : PyStr → Bool
  | [] => startsWithCP needle []
  | h :: t => startsWithCP needle (h :: t) || pyIn needle t

/-- The str.encode() of a string: utf-8 bytes of each codepoint. -/
def utf8Encode (s : PyStr) : List Nat :=
  s.flatMap (fun n =>
    if n < 128 then [n]
    else if n < 2048 then [192 + n / 64, 128 + n % 64]
    else if n < 65536 then [224 + n / 4096, 128 + (n / 64) % 64, 128 + n % 64]
    else [240 + n / 262144, 128 + (n / 4096) % 64, 128 + (n / 64) % 64, 128 + n % 64])

/-- The MD5 round-constant table K, floor(2^32 * abs(sin(i+1))). -/
def md5K : List Nat := [3614090360, 3905402710, 606105819, 3250441966, 4118548399, 1200080426, 2821735955, 4249261313, 1770035416, 2336552879, 4294925233, 2304563134, 1804603682, 4254626195, 2792965006, 1236535329, 4129170786, 3225465664, 643717713, 3921069994, 3593408605, 38016083, 3634488961, 3889429448, 568446438, 3275163606, 4107603335, 1163531501, 2850285829, 4243563512, 1735328473, 2368359562, 4294588738, 2272392833, 1839030562, 4259657740, 2763975236, 1272893353, 4139469664, 3200236656, 681279174, 3936430074, 3572445317, 76029189, 3654602809, 3873151461, 530742520, 3299628645, 4096336452, 1126891415, 2878612391, 4237533241, 1700485571, 2399980690, 4293915773, 2240044497, 1873313359, 4264355552, 2734768916, 1309151649, 4149444226, 3174756917, 718787259, 3951481745]

/-- The MD5 per-round left-rotation amounts. -/
def md5S : List Nat := [7, 12, 17, 22, 7, 12, 17, 22, 7, 12, 17, 22, 7, 12, 17, 22, 5, 9, 14, 20, 5, 9, 14, 20, 5, 9, 14, 20, 5, 9, 14, 20, 4, 11, 16, 23, 4, 11, 16, 23, 4, 11, 16, 23, 4, 11, 16, 23, 6, 10, 15, 21, 6, 10, 15, 21, 6, 10, 15, 21, 6, 10, 15, 21]

/-- All ones in 32 bits, used for bitwise complement below 2^32. -/
def u32mask : Nat := 4294967295

/-- Left rotation of a 32-bit word held in a Nat below 2^32. -/
def rotl32 (x s : Nat) : Nat :=
  ((x <<< s) % 4294967296) ||| (x >>> (32 - s))

/-- Little-endian encoding of x into n bytes. -/
def toLE (n x : Nat) : List Nat :=
  (List.range n).map (fun i => (x >>> (8 * i)) % 256)

/-- The MD5 padding: 0x80, zeros to 56 mod 64, then the 64-bit little-endian bit length. -/
def md5Pad (msg : List Nat) : List Nat :=
  let len := msg.length
  msg ++ [128] ++ List.replicate ((119 - (len % 64)) % 64) 0 ++
    toLE 8 ((8 * len) % 18446744073709551616)

/-- Little-endian 32-bit word number g of a 64-byte chunk. -/
def chunkWord (chunk : List Nat) (g : Nat) : Nat :=
  chunk.getD (4 * g) 0 + 256 * chunk.getD (4 * g + 1) 0 +
    65536 * chunk.getD (4 * g + 2) 0 + 16777216 * chunk.getD (4 * g + 3) 0

/-- One of the 64 MD5 rounds on the running state (a, b, c, d). -/
def md5Round (chunk : List Nat) (st : Nat × Nat × Nat × Nat) (i : Nat) :
    Nat × Nat × Nat × Nat :=
  let a := st.1; let b := st.2.1; let c := st.2.2.1; let d := st.2.2.2
  let fg : Nat × Nat :=
    if i < 16 then ((b &&& c) ||| ((b ^^^ u32mask) &&& d), i)
    else if i < 32 then ((d &&& b) ||| ((d ^^^ u32mask) &&& c), (5 * i + 1) % 16)
    else if i < 48 then (b ^^^ c ^^^ d, (3 * i + 5) % 16)
    else (c ^^^ (b ||| (d ^^^ u32mask)), (7 * i) % 16)
  let f := (fg.1 + a + md5K.getD i 0 + chunkWord chunk fg.2) % 4294967296
  (d, (b + rotl32 f (md5S.getD i 0)) % 4294967296, b, c)

/-- Processing of one 64-byte chunk, folding the rounds and adding into the state. -/
def md5Chunk (st : Nat × Nat × Nat × Nat) (chunk : List Nat) : Nat × Nat × Nat × Nat :=
  let r := (List.range 64).foldl (md5Round chunk) st
  ((st.1 + r.1) % 4294967296, (st.2.1 + r.2.1) % 4294967296,
   (st.2.2.1 + r.2.2.1) % 4294967296, (st.2.2.2 + r.2.2.2) % 4294967296)

/-- Fold over the chunks of the padded message; n counts the 64-byte chunks left. -/
def md5Chunks : Nat → List Nat → Nat × Nat × Nat × Nat → Nat × Nat × Nat × Nat
  | 0, _, st => st
  | n + 1, msg, st => md5Chunks n (msg.drop 64) (md5Chunk st (msg.take 64))

/-- Codepoint of one lowercase hex digit. -/
def hexDigitCP (n : Nat) : Nat := if n < 10 then 48 + n else 87 + n

/-- The MD5 hexdigest of a byte list, as a 32-character codepoint string.
Checked against hashlib.md5 on the RFC 1321 vectors. -/
def md5hex (msg : List Nat) : PyStr :=
  let padded := md5Pad msg
  let st := md5Chunks (padded.length / 64) padded (1732584193, 4023233417, 2562383102, 271733878)
  let bytes := toLE 4 st.1 ++ toLE 4 st.2.1 ++ toLE 4 st.2.2.1 ++ toLE 4 st.2.2.2
  bytes.flatMap (fun b => [hexDigitCP (b / 16), hexDigitCP (b % 16)])

/-- utils.generate_job_id: concatenate title, company, location with no
separator, lowercase and strip the concatenation, then take the first 12
hex characters of the MD5 digest. -/
def generate_job_id (title company location : PyStr) : PyStr :=
  let raw := pyStrip (pyLower (title ++ company ++ location))
  (md5hex (utf8Encode raw)).take 12

/-- Configuration surface of config.py read by the scorer and the merge gate. -/
structure ScoreConfig where
  TITLE_KEYWORDS_HIGH : List PyStr
  DESCRIPTION_KEYWORDS_MUST : List PyStr
  DESCRIPTION_KEYWORDS_NICE : List PyStr
  EXCLUDE_TITLE_KEYWORDS : List PyStr
  MIN_RELEVANCE_SCORE : Nat
  MIN_SALARY_PREFERRED : Int
  SALARY_BOOST_THRESHOLD : Int

/-- The concrete configuration of config.py. -/
def config : ScoreConfig where
  TITLE_KEYWORDS_HIGH :=
    [pyOfString "director", pyOfString "head", pyOfString "lead", pyOfString "senior",
     pyOfString "principal", pyOfString "vp", pyOfString "growth", pyOfString "strategy",
     pyOfString "program", pyOfString "product", pyOfString "business", pyOfString "p&l",
     pyOfString "marketplace", pyOfString "category", pyOfString "city"]
  DESCRIPTION_KEYWORDS_MUST :=
    [pyOfString "strategy", pyOfString "growth", pyOfString "program", pyOfString "product",
     pyOfString "operations", pyOfString "p&l", pyOfString "business",
     pyOfString "stakeholder", pyOfString "cross-functional"]
  DESCRIPTION_KEYWORDS_NICE :=
    [pyOfString "ai", pyOfString "sql", pyOfString "data", pyOfString "analytics",
     pyOfString "user acquisition", pyOfString "marketplace", pyOfString "food",
     pyOfString "delivery", pyOfString "consumer", pyOfString "fintech",
     pyOfString "tableau", pyOfString "dashboard", pyOfString "okr", pyOfString "revenue"]
  EXCLUDE_TITLE_KEYWORDS :=
    [pyOfString "intern", pyOfString "fresher", pyOfString "junior", pyOfString "associate",
     pyOfString "entry level", pyOfString "trainee", pyOfString "graduate",
     pyOfString "assistant"]
  MIN_RELEVANCE_SCORE := 30
  MIN_SALARY_PREFERRED := 2500000
  SALARY_BOOST_THRESHOLD := 3500000

/-- A job record as built by scrape_jobs.scrape_all, lines 51 to 84.
Fields that the pipeline may leave as None are Options; salary amounts are
modelled as integers. -/
structure Job where
  title : Option PyStr
  company : PyStr
  company_url : PyStr
  job_url : PyStr
  location : PyStr
  is_remote : Bool
  description : Option PyStr
  job_type : PyStr
  source : PyStr
  date_posted : PyStr
  emails : List PyStr
  min_amount : Option Int
  max_amount : Option Int
  currency : PyStr
  salary_source : PyStr
  _id : PyStr
  _scraped_at : PyStr
  _scraped_date : PyStr
  _search_query : PyStr
  _relevance_score : Nat
  _status : PyStr
  _tailored : Bool
  _outreach_drafted : Bool
  _outreach_sent : Bool
deriving DecidableEq

/-- utils.score_relevance, translated statement by statement. -/
def score_relevance (job : Job) (config : ScoreConfig) : Nat :=
  let title := pyLower (job.title.getD [])
  let description := pyLower (job.description.getD [])
  let text := title ++ pyOfString " " ++ description
  let title_hits := config.TITLE_KEYWORDS_HIGH.countP (fun kw => pyIn kw title)
  let score := min 40 (title_hits * 12)
  let must_hits := config.DESCRIPTION_KEYWORDS_MUST.countP (fun kw => pyIn kw text)
  let score := score + min 25 (must_hits * 5)
  let nice_hits := config.DESCRIPTION_KEYWORDS_NICE.countP (fun kw => pyIn kw text)
  let score := score + min 20 (nice_hits * 3)
  let min_salary := job.min_amount.getD 0
  let max_salary := job.max_amount.getD 0
  let salary := max min_salary max_salary
  let score :=
    if config.SALARY_BOOST_THRESHOLD ≤ salary then score + 15
    else if config.MIN_SALARY_PREFERRED ≤ salary then score + 8
    else score
  let score :=
    if config.EXCLUDE_TITLE_KEYWORDS.any (fun kw => pyIn kw title) then 0 else score
  min 100 score

/-- Assignment m[k] = v on an insertion-ordered dict: an existing key keeps
its position and gets the new value, a fresh key is appended. -/
def dictInsert : List (PyStr × Job) → PyStr → Job → List (PyStr × Job)
  | [], k, v => [(k, v)]
  | (k', v') :: rest, k, v =>
    if k' = k then (k, v) :: rest else (k', v') :: dictInsert rest k v

/-- Lookup m[k] on an insertion-ordered dict. -/
def dictFind : List (PyStr × Job) → PyStr → Option Job
  | [], _ => none
  | (k', v) :: rest, k => if k' = k then some v else dictFind rest k

/-- The keys of a dict, in order. -/
def dictKeys (m : List (PyStr × Job)) : List PyStr := m.map Prod.fst

/-- list(m.values()) of a dict, in order. -/
def dictValues (m : List (PyStr × Job)) : List Job := m.map Prod.snd

/-- Fold a job list into a dict keyed by the _id field, as both the dict
comprehension and the update loop of utils.deduplicate_jobs do. -/
def jobDict (jobs : List Job) (m : List (PyStr × Job)) : List (PyStr × Job) :=
  jobs.foldl (fun m j => dictInsert m j._id j) m

/-- utils.deduplicate_jobs: build a dict from the existing jobs, overwrite
with the new jobs, return the value list. -/
def deduplicate_jobs (new_jobs existing_jobs : List Job) : List Job :=
  dictValues (jobDict new_jobs (jobDict existing_jobs []))

/-- Well-formedness of a dict produced by jobDict: every stored record is
keyed by its own _id field. -/
def dictWF (m : List (PyStr × Job)) : Prop := ∀ p ∈ m, p.2._id = p.1

/-- First record with the given _id in a job list. -/
def findById (jobs : List Job) (x : PyStr) : Option Job :=
  jobs.find? (fun j => decide (j._id = x))

/-- A raw listing row as handed over by the scraper collaborator. -/
structure RawJob where
  title : PyStr
  company : PyStr
  company_url : PyStr
  job_url : PyStr
  location : PyStr
  is_remote : Bool
  description : PyStr
  job_type : PyStr
  site : PyStr
  date_posted : PyStr
  emails : List PyStr
  min_amount : Option Int
  max_amount : Option Int
  currency : PyStr
  salary_source : PyStr
deriving DecidableEq

/-- Construction of one job record from a raw row, scrape_jobs lines 51 to 84:
copy the scraped fields, derive _id and _relevance_score, initialise the
pipeline flags to false. -/
def mkJob (scraped_at scraped_date query : PyStr) (r : RawJob) : Job :=
  let base : Job :=
    { title := some r.title
      company := r.company
      company_url := r.company_url
      job_url := r.job_url
      location := r.location
      is_remote := r.is_remote
      description := some r.description
      job_type := r.job_type
      source := r.site
      date_posted := r.date_posted
      emails := r.emails
      min_amount := r.min_amount
      max_amount := r.max_amount
      currency := r.currency
      salary_source := r.salary_source
      _id := generate_job_id r.title r.company r.location
      _scraped_at := scraped_at
      _scraped_date := scraped_date
      _search_query := query
      _relevance_score := 0
      _status := pyOfString "new"
      _tailored := false
      _outreach_drafted := false
      _outreach_sent := false }
  { base with _relevance_score := score_relevance base config }

/-- Stable insertion into a score-descending list: the new element goes
before the first element whose score is at most its own, which reproduces
the stable descending sort of list.sort(key=score, reverse=True) when
folded from the right. -/
def insertByScoreDesc (j : Job) : List Job → List Job
  | [] => [j]
  | x :: xs =>
    if x._relevance_score ≤ j._relevance_score then j :: x :: xs
    else x :: insertByScoreDesc j xs

/-- Stable sort by _relevance_score descending, scrape_jobs line 107. -/
def sortByScoreDesc (l : List Job) : List Job := l.foldr insertByScoreDesc []

/-- scrape_jobs lines 50 to 99 for one batch of raw rows: build each record,
keep it only when its relevance score reaches the floor, then deduplicate
within the run, last one wins. -/
def scrape_new_jobs (rows : List RawJob) (scraped_at scraped_date query : PyStr) :
    List Job :=
  let kept := (rows.map (mkJob scraped_at scraped_date query)).filter
    (fun j => decide (config.MIN_RELEVANCE_SCORE ≤ j._relevance_score))
  dictValues (jobDict kept [])

/-- scrape_jobs lines 50 to 107: accepted new jobs merged into the existing
collection and re-sorted by score descending. -/
def scrape_all_merge (rows : List RawJob) (scraped_at scraped_date query : PyStr)
    (existing_jobs : List Job) : List Job :=
  sortByScoreDesc
    (deduplicate_jobs (scrape_new_jobs rows scraped_at scraped_date query) existing_jobs)

/-- The jobs.json document shape written by scrape_all. -/
structure JobsFile where
  last_updated : PyStr
  total_jobs : Nat
  new_today : Nat
  jobs : List Job
deriving DecidableEq

/-- On-disk state of the jobs.json document. -/
inductive FileState where
  | absent
  | unreadable
  | readable (data : JobsFile)

/-- Python exceptions that load_json can raise. -/
inductive PyErr where
  | jsonDecodeError
deriving DecidableEq

/-- utils.load_json: None when the file does not exist, the parsed document
when it parses, an uncaught json.JSONDecodeError when it exists but does
not parse. -/
def load_json (fs : FileState) : Except PyErr (Option JobsFile) :=
  match fs with
  | .absent => .ok none
  | .unreadable => .error .jsonDecodeError
  | .readable d => .ok (some d)

/-- The fallback document of scrape_all line 102; only its jobs field is
read afterwards. -/
def emptyJobsData : JobsFile :=
  { last_updated := [], total_jobs := 0, new_today := 0, jobs := [] }

/-- scrape_jobs.scrape_all after the scraping loop, lines 96 to 116: load the
persisted collection, treat an absent file as the empty collection, merge,
sort, and describe the document that save_json persists.  A load error
propagates and aborts the run. -/
def scrape_all_model (rows : List RawJob) (scraped_at scraped_date query now : PyStr)
    (fs : FileState) : Except PyErr JobsFile :=
  match load_json fs with
  | .error e => .error e
  | .ok r =>
    let all_new_jobs := scrape_new_jobs rows scraped_at scraped_date query
    let existing_jobs := (r.getD emptyJobsData).jobs
    let merged := sortByScoreDesc (deduplicate_jobs all_new_jobs existing_jobs)
    .ok { last_updated := now, total_jobs := merged.length,
          new_today := all_new_jobs.length, jobs := merged }

/-- One file-system effect, with the payload of writes abstracted. -/
inductive FsOp (α : Type) where
  | mkdir (path : PyStr)
  | openTrunc (path : PyStr)
  | write (path : PyStr) (data : α)
  | close (path : PyStr)
  | rename (src dst : PyStr)
deriving DecidableEq

/-- The data directory of utils.py, relative to the repository root. -/
def DATA_DIR : PyStr := pyOfString "scripts/../data"

/-- os.path.join(DATA_DIR, filename). -/
def dataPath (filename : PyStr) : PyStr := DATA_DIR ++ pyOfString "/" ++ filename

/-- File-system effects of utils.ensure_data_dir. -/
def ensure_data_dir_ops (α : Type) : List (FsOp α) :=
  [.mkdir DATA_DIR, .mkdir (dataPath (pyOfString "tailored"))]

/-- File-system effects of utils.save_json: ensure the directories, open the
target path itself for truncating write, dump the document, close. -/
def save_json {α : Type} (filename : PyStr) (data : α) : List (FsOp α) :=
  ensure_data_dir_ops α ++
    [.openTrunc (dataPath filename), .write (dataPath filename) data,
     .close (dataPath filename)]

/-- Whether an effect is a rename. -/
def isRenameOp {α : Type} : FsOp α → Bool
  | .rename _ _ => true
  | _ => false

/-- Modelled from the spec (claim C8 wording): the trace writes the
collection by first writing to a temporary location and then renaming that
temporary location onto the target.  This is the property the spec asserts
of save; it is compared against the trace the code actually produces. -/
def writesViaTempRename {α : Type} (ops : List (FsOp α)) (target : PyStr) : Prop :=
  ∃ tmp, tmp ≠ target ∧
    FsOp.rename tmp target ∈ ops ∧
    (∃ d : α, FsOp.write tmp d ∈ ops) ∧
    (∀ d : α, FsOp.write target d ∉ ops)

/-- A stored job record as read back defensively by update_stats.run_stats,
every field through dict.get with a default; the relevance score can be
missing or out of the 0 to 100 range. -/
structure StatsJob where
  _relevance_score : Option Int
  _scraped_date : Option PyStr
  _tailored : Bool
  source : Option PyStr
  location : Option PyStr
  _status : Option PyStr
  company : Option PyStr
  min_amount : Option Int
  max_amount : Option Int
deriving DecidableEq

/-- The five-bucket histogram accumulator of run_stats. -/
structure ScoreBuckets where
  b90_100 : Nat
  b70_89 : Nat
  b50_69 : Nat
  b30_49 : Nat
  b0_29 : Nat
deriving DecidableEq

/-- One iteration of the score-distribution loop, update_stats lines 47 to 58:
a missing score defaults to 0, then the first matching branch of the
if/elif/else chain increments its bucket. -/
def bucketStep (b : ScoreBuckets) (j : StatsJob) : ScoreBuckets :=
  let s := j._relevance_score.getD 0
  if 90 ≤ s then { b with b90_100 := b.b90_100 + 1 }
  else if 70 ≤ s then { b with b70_89 := b.b70_89 + 1 }
  else if 50 ≤ s then { b with b50_69 := b.b50_69 + 1 }
  else if 30 ≤ s then { b with b30_49 := b.b30_49 + 1 }
  else { b with b0_29 := b.b0_29 + 1 }

/-- The score_buckets histogram of update_stats.run_stats. -/
def score_buckets (jobs : List StatsJob) : ScoreBuckets :=
  jobs.foldl bucketStep ⟨0, 0, 0, 0, 0⟩

/-- Sum of the five bucket counts. -/
def bucketsTotal (b : ScoreBuckets) : Nat :=
  b.b90_100 + b.b70_89 + b.b50_69 + b.b30_49 + b.b0_29

/-- A job record with every field empty or false, used as the base of the
concrete examples below. -/
def defaultJob : Job :=
  { title := none
    company := []
    company_url := []
    job_url := []
    location := []
    is_remote := false
    description := none
    job_type := []
    source := []
    date_posted := []
    emails := []
    min_amount := none
    max_amount := none
    currency := []
    salary_source := []
    _id := []
    _scraped_at := []
    _scraped_date := []
    _search_query := []
    _relevance_score := 0
    _status := []
    _tailored := false
    _outreach_drafted := false
    _outreach_sent := false }

/-- The worked example of the spec: title Senior Program Manager, the given
description, no salary fields. -/
def jobC1 : Job :=
  { defaultJob with
    title := some (pyOfString "Senior Program Manager")
    description := some (pyOfString "growth strategy program product operations stakeholder ai sql data analytics") }

/-- A record whose title hits an exclusion keyword while every other
sub-score is maximal: four high title keywords, all must and many nice
description keywords, and a salary above the boost threshold. -/
def jobC3 : Job :=
  { defaultJob with
    title := some (pyOfString "Senior Director, Head of Growth Intern")
    description := some (pyOfString "strategy growth program product operations p&l business stakeholder cross-functional ai sql data analytics marketplace food delivery consumer")
    min_amount := some 3600000
    max_amount := some 4000000 }

/-- A persisted record for id x1 that an earlier pipeline stage has marked
tailored and drafted. -/
def jobOldC5 : Job :=
  { defaultJob with
    _id := pyOfString "x1"
    description := some (pyOfString "old description")
    _tailored := true
    _outreach_drafted := true
    _outreach_sent := true
    _relevance_score := 88 }

/-- A freshly scraped candidate for the same id x1 with a different
description and all pipeline flags false. -/
def jobNewC5 : Job :=
  { defaultJob with
    _id := pyOfString "x1"
    description := some (pyOfString "new description")
    _relevance_score := 61 }

/-- A raw scraper row whose record scores 61, above the floor of 30. -/
def rawC7 : RawJob :=
  { title := pyOfString "Senior Program Manager"
    company := pyOfString "Acme"
    company_url := []
    job_url := []
    location := pyOfString "Pune, India"
    is_remote := false
    description := pyOfString "growth strategy program product operations stakeholder ai sql data analytics"
    job_type := []
    site := []
    date_posted := []
    emails := []
    min_amount := none
    max_amount := none
    currency := []
    salary_source := [] }

theorem bucketStep_total (b : ScoreBuckets) (j : StatsJob) :
    bucketsTotal (bucketStep b j) = bucketsTotal b + 1 := by
  obtain ⟨x1, x2, x3, x4, x5⟩ := b
  simp only [bucketStep, bucketsTotal]
  split
  all_goals try split
  all_goals try split
  all_goals try split
  all_goals dsimp only
  all_goals omega

theorem bucketsTotal_foldl (jobs : List StatsJob) : ∀ b : ScoreBuckets,
    bucketsTotal (jobs.foldl bucketStep b) = bucketsTotal b + jobs.length := by
  induction jobs with
  | nil => intro b; simp
  | cons j rest ih =>
    intro b
    simp only [List.foldl_cons, List.length_cons]
    rw [ih, bucketStep_total]
    omega

/-- Claim C10: the stats aggregator assigns every job of the collection to
exactly one of the five histogram buckets, and the bucket counts sum to the
total number of jobs, also for records whose relevance score is missing or
out of range. -/
theorem C10_buckets_exhaustive (jobs : List StatsJob) :
    bucketsTotal (score_buckets jobs) = jobs.length ∧
    ∀ (b : ScoreBuckets) (j : StatsJob), bucketsTotal (bucketStep b j) = bucketsTotal b + 1 := by
  refine ⟨?_, bucketStep_total⟩
  have h := bucketsTotal_foldl jobs ⟨0, 0, 0, 0, 0⟩
  simpa [score_buckets, bucketsTotal] using h

/-- Claim C4: for every job record, also with missing title, description or
salary fields, and every configuration, the relevance score is an integer
between 0 and 100. -/
theorem C4_score_bounded (job : Job) (config : ScoreConfig) :
    0 ≤ score_relevance job config ∧ score_relevance job config ≤ 100 :=
  ⟨Nat.zero_le _, Nat.min_le_left 100 _⟩

set_option maxRecDepth 100000 in
/-- Claim C1 counterexample: on the record of the worked example of the
spec the scorer does not return 77.  The title Senior Program Manager hits
only the keywords senior and program, not product, so the title sub-score
is 24, not 36 capped at 40. -/
theorem C1_counterexample : score_relevance jobC1 config ≠ 77 := by decide

set_option maxRecDepth 100000 in
/-- Claim C1 amended: on that record the scorer returns exactly 61, namely
title hits senior and program for 2 times 12 is 24, must hits capped at 25,
nice hits 4 times 3 is 12, no salary boost. -/
theorem C1_amended_theorem : score_relevance jobC1 config = 61 := by decide

/-- Claim C3: whenever the lower-cased title contains a keyword of the
exclusion list, the score is 0, however many points the title, description
and salary sub-scores accumulated, because the zeroing is the last step
before the final clamp. -/
theorem C3_exclusion_zero (job : Job) (config : ScoreConfig)
    (h : config.EXCLUDE_TITLE_KEYWORDS.any
      (fun kw => pyIn kw (pyLower (job.title.getD []))) = true) :
    score_relevance job config = 0 := by
  simp only [score_relevance, h, if_true]
  rfl

set_option maxRecDepth 100000 in
/-- Claim C3 witness: a record whose title contains intern while the title,
description and salary sub-scores are all maximal still scores 0. -/
theorem C3_witness : score_relevance jobC3 config = 0 :=
  C3_exclusion_zero jobC3 config (by decide)

/-- Claim C8 counterexample: the effect trace of save_json for the jobs
collection contains no rename at all, and in particular does not write to a
temporary location and rename it onto the target; it writes the target
path directly. -/
theorem C8_counterexample :
    ¬ writesViaTempRename (save_json (pyOfString "jobs.json") emptyJobsData)
      (dataPath (pyOfString "jobs.json")) := by
  rintro ⟨tmp, -, hmem, -, -⟩
  simp [save_json, ensure_data_dir_ops] at hmem

/-- Claim C8 amended: save_json writes the full document directly to the
target path after a truncating open, and its effect trace contains no
rename, so no atomic temp-then-rename replacement is performed. -/
theorem C8_amended_theorem {α : Type} (filename : PyStr) (data : α) :
    FsOp.write (dataPath filename) data ∈ save_json filename data ∧
    (save_json filename data).all (fun op => !(isRenameOp op)) = true := by
  constructor
  · simp [save_json, ensure_data_dir_ops]
  · simp [save_json, ensure_data_dir_ops, isRenameOp]

/-- Claim C9: load_json returns the explicit absent signal None when the
file has never been saved, which scrape_all turns into the empty
collection, and raises a fatal json decode error when the file exists but
is unreadable, so a corrupt store is never silently replaced by an empty
collection. -/
theorem C9_load_contract :
    load_json FileState.absent = Except.ok none ∧
    load_json FileState.unreadable = Except.error PyErr.jsonDecodeError ∧
    scrape_all_model [] [] [] [] [] FileState.absent =
      Except.ok { last_updated := [], total_jobs := 0, new_today := 0, jobs := [] } ∧
    scrape_all_model [] [] [] [] [] FileState.unreadable =
      Except.error PyErr.jsonDecodeError :=
  ⟨rfl, rfl, rfl, rfl⟩

theorem lowerCP_idem (n : Nat) : lowerCP (lowerCP n) = lowerCP n := by
  unfold lowerCP
  by_cases h : 65 ≤ n ∧ n ≤ 90
  · rw [if_pos h, if_neg (by omega)]
  · rw [if_neg h, if_neg h]

theorem lowerCP_of_space (n : Nat) (h : isSpaceCP n = true) : lowerCP n = n := by
  simp only [isSpaceCP, Bool.or_eq_true, beq_iff_eq] at h
  unfold lowerCP
  rw [if_neg (by omega)]

theorem pyLower_append (a b : PyStr) : pyLower (a ++ b) = pyLower a ++ pyLower b :=
  List.map_append lowerCP a b

theorem pyLower_idem (s : PyStr) : pyLower (pyLower s) = pyLower s := by
  induction s with
  | nil => rfl
  | cons a t ih =>
    simp only [pyLower, List.map_cons] at ih ⊢
    rw [lowerCP_idem, ih]

theorem pyLower_of_spaces (ws : PyStr) : (∀ x ∈ ws, isSpaceCP x = true) → pyLower ws = ws := by
  induction ws with
  | nil => intro _; rfl
  | cons a t ih =>
    intro h
    simp only [pyLower, List.map_cons] at ih ⊢
    rw [lowerCP_of_space a (h a (List.mem_cons_self a t)),
      ih (fun x hx => h x (List.mem_cons_of_mem a hx))]

theorem dropWhile_all_append (p : Nat → Bool) (ws s : PyStr) :
    (∀ x ∈ ws, p x = true) → (ws ++ s).dropWhile p = s.dropWhile p := by
  induction ws with
  | nil => intro _; rfl
  | cons a t ih =>
    intro h
    rw [List.cons_append, List.dropWhile_cons, if_pos (h a (List.mem_cons_self a t))]
    exact ih (fun x hx => h x (List.mem_cons_of_mem a hx))

theorem dropWhile_eq_nil_all (p : Nat → Bool) (s : PyStr) :
    (∀ x ∈ s, p x = true) → s.dropWhile p = [] := by
  induction s with
  | nil => intro _; rfl
  | cons a t ih =>
    intro h
    rw [List.dropWhile_cons, if_pos (h a (List.mem_cons_self a t))]
    exact ih (fun x hx => h x (List.mem_cons_of_mem a hx))

theorem all_of_dropWhile_eq_nil (p : Nat → Bool) (s : PyStr) :
    s.dropWhile p = [] → ∀ x ∈ s, p x = true := by
  induction s with
  | nil => intro _ x hx; cases hx
  | cons a t ih =>
    intro h x hx
    rw [List.dropWhile_cons] at h
    by_cases hp : p a = true
    · rw [if_pos hp] at h
      rcases List.mem_cons.mp hx with rfl | hx'
      · exact hp
      · exact ih h x hx'
    · rw [if_neg hp] at h
      simp at h

theorem dropWhile_append_of_cons (p : Nat → Bool) (s z : PyStr) (a : Nat) (t : PyStr) :
    s.dropWhile p = a :: t → (s ++ z).dropWhile p = a :: t ++ z := by
  induction s with
  | nil => intro h; simp at h
  | cons b s ih =>
    intro h
    rw [List.dropWhile_cons] at h
    rw [List.cons_append, List.dropWhile_cons]
    by_cases hp : p b = true
    · rw [if_pos hp] at h ⊢
      exact ih h
    · rw [if_neg hp] at h ⊢
      injection h with h1 h2
      subst h1; subst h2
      rfl

theorem pyStrip_spaces_append (ws₁ X ws₂ : PyStr)
    (h₁ : ∀ x ∈ ws₁, isSpaceCP x = true) (h₂ : ∀ x ∈ ws₂, isSpaceCP x = true) :
    pyStrip (ws₁ ++ (X ++ ws₂)) = pyStrip X := by
  unfold pyStrip
  rw [dropWhile_all_append _ _ _ h₁]
  cases hX : X.dropWhile isSpaceCP with
  | nil =>
    have hall : ∀ x ∈ X, isSpaceCP x = true := all_of_dropWhile_eq_nil _ _ hX
    have hXw : (X ++ ws₂).dropWhile isSpaceCP = [] := by
      refine dropWhile_eq_nil_all _ _ (fun x hx => ?_)
      rcases List.mem_append.mp hx with h | h
      · exact hall x h
      · exact h₂ x h
    rw [hXw]
  | cons a t =>
    rw [dropWhile_append_of_cons _ _ _ _ _ hX]
    rw [show (a :: t ++ ws₂).reverse = ws₂.reverse ++ (a :: t).reverse from
      List.reverse_append _ _]
    rw [dropWhile_all_append _ _ _ (fun x hx => h₂ x (List.mem_reverse.mp hx))]

set_option maxRecDepth 1000000 in
/-- Claim C2 counterexample: two triples whose components differ only in a
trailing blank of the title produce different 12-character identifiers,
because the code trims only the concatenated string, so whitespace at the
boundary between two fields survives into the hashed text. -/
theorem C2_counterexample :
    generate_job_id (pyOfString "A ") (pyOfString "B") (pyOfString "C") ≠
      generate_job_id (pyOfString "A") (pyOfString "B") (pyOfString "C") := by
  decide

/-- Claim C2 amended: the identifier is invariant under case-folding of
each of the three components and under whitespace at the very start of the
title and the very end of the location, which is what stripping the
concatenation gives; whitespace at interior field boundaries is not
trimmed. -/
theorem C2_amended (t c l ws₁ ws₂ : PyStr)
    (h₁ : ∀ x ∈ ws₁, isSpaceCP x = true) (h₂ : ∀ x ∈ ws₂, isSpaceCP x = true) :
    generate_job_id (ws₁ ++ pyLower t) (pyLower c) (pyLower l ++ ws₂) =
      generate_job_id t c l := by
  simp only [generate_job_id]
  have hraw : pyStrip (pyLower (ws₁ ++ pyLower t ++ pyLower c ++ (pyLower l ++ ws₂))) =
      pyStrip (pyLower (t ++ c ++ l)) := by
    simp only [pyLower_append, pyLower_idem, pyLower_of_spaces ws₁ h₁,
      pyLower_of_spaces ws₂ h₂, List.append_assoc]
    simpa [List.append_assoc] using
      pyStrip_spaces_append ws₁ (pyLower t ++ (pyLower c ++ pyLower l)) ws₂ h₁ h₂
  rw [hraw]

/-- Claim C2 witness: the amended invariance at a concrete triple, with a
leading blank on the title, a trailing blank on the location, and all
three components case-folded. -/
theorem C2_witness :
    generate_job_id ([32] ++ pyLower (pyOfString "Senior PM")) (pyLower (pyOfString "Acme"))
      (pyLower (pyOfString "Pune") ++ [32]) =
      generate_job_id (pyOfString "Senior PM") (pyOfString "Acme") (pyOfString "Pune") :=
  C2_amended (pyOfString "Senior PM") (pyOfString "Acme") (pyOfString "Pune") [32] [32]
    (by decide) (by decide)

theorem dictKeys_cons (p : PyStr × Job) (m : List (PyStr × Job)) :
    dictKeys (p :: m) = p.1 :: dictKeys m := rfl

theorem dictValues_cons (p : PyStr × Job) (m : List (PyStr × Job)) :
    dictValues (p :: m) = p.2 :: dictValues m := rfl

theorem dictKeys_append (m n : List (PyStr × Job)) :
    dictKeys (m ++ n) = dictKeys m ++ dictKeys n := List.map_append _ _ _

theorem jobDict_nil (m : List (PyStr × Job)) : jobDict [] m = m := rfl

theorem jobDict_cons (j : Job) (B : List Job) (m : List (PyStr × Job)) :
    jobDict (j :: B) m = jobDict B (dictInsert m j._id j) := rfl

theorem dictFind_insert_self (m : List (PyStr × Job)) (k : PyStr) (v : Job) :
    dictFind (dictInsert m k v) k = some v := by
  induction m with
  | nil => simp [dictInsert, dictFind]
  | cons p rest ih =>
    obtain ⟨k', v'⟩ := p
    by_cases h : k' = k
    · simp [dictInsert, dictFind, h]
    · simp [dictInsert, dictFind, h, ih]

theorem dictFind_insert_ne (m : List (PyStr × Job)) (k k'' : PyStr) (v : Job)
    (h : k'' ≠ k) : dictFind (dictInsert m k v) k'' = dictFind m k'' := by
  induction m with
  | nil => simp [dictInsert, dictFind, Ne.symm h]
  | cons p rest ih =>
    obtain ⟨k', v'⟩ := p
    by_cases hk : k' = k
    · subst hk
      simp [dictInsert, dictFind, Ne.symm h]
    · simp [dictInsert, dictFind, hk, ih]

theorem dictKeys_insert_mem (m : List (PyStr × Job)) (k : PyStr) (v : Job) :
    k ∈ dictKeys m → dictKeys (dictInsert m k v) = dictKeys m := by
  induction m with
  | nil => intro h; simp [dictKeys] at h
  | cons p rest ih =>
    obtain ⟨k', v'⟩ := p
    intro h
    by_cases hk : k' = k
    · simp [dictInsert, hk, dictKeys]
    · have h' : k ∈ dictKeys rest := by
        rw [dictKeys_cons, List.mem_cons] at h
        rcases h with h | h
        · exact absurd h.symm hk
        · exact h
      simp only [dictInsert, if_neg hk, dictKeys_cons]
      rw [ih h']

theorem dictKeys_insert_not_mem (m : List (PyStr × Job)) (k : PyStr) (v : Job) :
    k ∉ dictKeys m → dictKeys (dictInsert m k v) = dictKeys m ++ [k] := by
  induction m with
  | nil => intro _; rfl
  | cons p rest ih =>
    obtain ⟨k', v'⟩ := p
    intro h
    rw [dictKeys_cons, List.mem_cons] at h
    push_neg at h
    have hk : ¬ k' = k := fun e => h.1 e.symm
    simp only [dictInsert, if_neg hk, dictKeys_cons]
    rw [ih h.2, List.cons_append]

theorem mem_dictKeys_insert (m : List (PyStr × Job)) (k k'' : PyStr) (v : Job)
    (h : k'' ∈ dictKeys m) : k'' ∈ dictKeys (dictInsert m k v) := by
  by_cases hk : k ∈ dictKeys m
  · rw [dictKeys_insert_mem m k v hk]; exact h
  · rw [dictKeys_insert_not_mem m k v hk]; exact List.mem_append_left _ h

theorem self_mem_dictKeys_insert (m : List (PyStr × Job)) (k : PyStr) (v : Job) :
    k ∈ dictKeys (dictInsert m k v) := by
  by_cases hk : k ∈ dictKeys m
  · rw [dictKeys_insert_mem m k v hk]; exact hk
  · rw [dictKeys_insert_not_mem m k v hk]
    exact List.mem_append_right _ (by simp)

theorem dictKeys_nodup_insert (m : List (PyStr × Job)) (k : PyStr) (v : Job)
    (h : (dictKeys m).Nodup) : (dictKeys (dictInsert m k v)).Nodup := by
  by_cases hk : k ∈ dictKeys m
  · rwa [dictKeys_insert_mem m k v hk]
  · rw [dictKeys_insert_not_mem m k v hk]
    simp [List.nodup_append, h, hk]

theorem dictFind_eq_none_of_not_mem (m : List (PyStr × Job)) (k : PyStr)
    (h : k ∉ dictKeys m) : dictFind m k = none := by
  induction m with
  | nil => rfl
  | cons p rest ih =>
    obtain ⟨k', v'⟩ := p
    rw [dictKeys_cons, List.mem_cons] at h
    push_neg at h
    simp only [dictFind]
    rw [if_neg (fun e => h.1 e.symm)]
    exact ih h.2

theorem dictWF_nil : dictWF [] := by
  intro p hp
  cases hp

theorem dictWF_insert (m : List (PyStr × Job)) (j : Job) (h : dictWF m) :
    dictWF (dictInsert m j._id j) := by
  induction m with
  | nil =>
    intro p hp
    simp only [dictInsert, List.mem_singleton] at hp
    rw [hp]
  | cons q rest ih =>
    obtain ⟨k', v'⟩ := q
    by_cases hk : k' = j._id
    · intro p hp
      simp only [dictInsert, if_pos hk] at hp
      rcases List.mem_cons.mp hp with rfl | hp'
      · rfl
      · exact h p (List.mem_cons_of_mem _ hp')
    · intro p hp
      simp only [dictInsert, if_neg hk] at hp
      rcases List.mem_cons.mp hp with rfl | hp'
      · exact h _ (List.mem_cons_self _ _)
      · exact ih (fun q hq => h q (List.mem_cons_of_mem _ hq)) p hp'

theorem dictWF_jobDict (B : List Job) : ∀ m, dictWF m → dictWF (jobDict B m) := by
  induction B with
  | nil => intro m h; exact h
  | cons j B ih => intro m h; exact ih _ (dictWF_insert m j h)

theorem dictKeys_nodup_jobDict (B : List Job) : ∀ m,
    (dictKeys m).Nodup → (dictKeys (jobDict B m)).Nodup := by
  induction B with
  | nil => intro m h; exact h
  | cons j B ih => intro m h; exact ih _ (dictKeys_nodup_insert m j._id j h)

theorem mem_dictKeys_jobDict (B : List Job) : ∀ m k,
    k ∈ dictKeys m → k ∈ dictKeys (jobDict B m) := by
  induction B with
  | nil => intro m k h; exact h
  | cons j B ih => intro m k h; exact ih _ _ (mem_dictKeys_insert m j._id k j h)

theorem id_mem_dictKeys_jobDict (B : List Job) : ∀ m, ∀ j ∈ B,
    j._id ∈ dictKeys (jobDict B m) := by
  induction B with
  | nil => intro m j hj; cases hj
  | cons j' B ih =>
    intro m j hj
    rcases List.mem_cons.mp hj with rfl | hj'
    · exact mem_dictKeys_jobDict B _ j._id (self_mem_dictKeys_insert m j._id j)
    · exact ih _ j hj'

theorem dictFind_jobDict (B : List Job) : ∀ (m : List (PyStr × Job)) (k : PyStr),
    dictFind (jobDict B m) k =
      B.foldl (fun acc j => if j._id = k then some j else acc) (dictFind m k) := by
  induction B with
  | nil => intro m k; rfl
  | cons j B ih =>
    intro m k
    rw [jobDict_cons, List.foldl_cons, ih]
    congr 1
    by_cases h : j._id = k
    · subst h
      rw [if_pos rfl]
      exact dictFind_insert_self m j._id j
    · rw [if_neg h]
      exact dictFind_insert_ne m j._id k j (fun e => h e.symm)

theorem foldl_if_filter (x : PyStr) (B : List Job) : ∀ init : Option Job,
    B.foldl (fun acc j => if j._id = x then some j else acc) init =
      (B.filter (fun j => decide (j._id = x))).foldl (fun _ j => some j) init := by
  induction B with
  | nil => intro init; rfl
  | cons j B ih =>
    intro init
    rw [List.foldl_cons, List.filter_cons]
    by_cases h : j._id = x
    · rw [if_pos h, if_pos (by simpa using h), List.foldl_cons]
      exact ih (some j)
    · rw [if_neg h, if_neg (by simpa using h)]
      exact ih init

theorem foldl_some_const (B : List Job) (i₁ i₂ : Option Job) (h : B ≠ []) :
    B.foldl (fun _ j => some j) i₁ = B.foldl (fun _ j => some j) i₂ := by
  cases B with
  | nil => exact absurd rfl h
  | cons j B => rfl

theorem dict_ext (m₁ : List (PyStr × Job)) : ∀ m₂ : List (PyStr × Job),
    (dictKeys m₁).Nodup → dictKeys m₁ = dictKeys m₂ →
    (∀ k, dictFind m₁ k = dictFind m₂ k) → m₁ = m₂ := by
  induction m₁ with
  | nil =>
    intro m₂ _ hkeys _
    cases m₂ with
    | nil => rfl
    | cons p m₂ => rw [dictKeys_cons] at hkeys; cases hkeys
  | cons p m₁ ih =>
    intro m₂ hnd hkeys hfind
    obtain ⟨k, v⟩ := p
    cases m₂ with
    | nil => rw [dictKeys_cons] at hkeys; cases hkeys
    | cons q m₂ =>
      obtain ⟨k₂, v₂⟩ := q
      rw [dictKeys_cons, dictKeys_cons] at hkeys
      injection hkeys with hk htail
      subst hk
      have hv : v = v₂ := by
        have h := hfind k
        simpa [dictFind] using h
      subst hv
      rw [dictKeys_cons, List.nodup_cons] at hnd
      have hfind' : ∀ k', dictFind m₁ k' = dictFind m₂ k' := by
        intro k'
        by_cases hk' : k' = k
        · subst hk'
          rw [dictFind_eq_none_of_not_mem _ _ hnd.1,
            dictFind_eq_none_of_not_mem _ _ (htail ▸ hnd.1)]
        · have h := hfind k'
          simp only [dictFind] at h
          rwa [if_neg (fun e => hk' e.symm), if_neg (fun e => hk' e.symm)] at h
      rw [ih m₂ hnd.2 htail hfind']

theorem dictKeys_jobDict_of_all_mem (B : List Job) : ∀ m,
    (∀ j ∈ B, j._id ∈ dictKeys m) → dictKeys (jobDict B m) = dictKeys m := by
  induction B with
  | nil => intro m _; rfl
  | cons j B ih =>
    intro m h
    have h1 : j._id ∈ dictKeys m := h j (List.mem_cons_self _ _)
    have h2 : ∀ j' ∈ B, j'._id ∈ dictKeys (dictInsert m j._id j) := fun j' hj' =>
      mem_dictKeys_insert m j._id j'._id j (h j' (List.mem_cons_of_mem _ hj'))
    rw [jobDict_cons, ih _ h2, dictKeys_insert_mem m j._id j h1]

theorem dictInsert_not_mem (m : List (PyStr × Job)) (k : PyStr) (v : Job) :
    k ∉ dictKeys m → dictInsert m k v = m ++ [(k, v)] := by
  induction m with
  | nil => intro _; rfl
  | cons p rest ih =>
    obtain ⟨k', v'⟩ := p
    intro h
    rw [dictKeys_cons, List.mem_cons] at h
    push_neg at h
    simp only [dictInsert]
    rw [if_neg (fun e => h.1 e.symm), ih h.2, List.cons_append]

theorem jobDict_fresh (L : List Job) : ∀ m,
    (∀ j ∈ L, j._id ∉ dictKeys m) → (L.map (fun j => j._id)).Nodup →
    jobDict L m = m ++ L.map (fun j => (j._id, j)) := by
  induction L with
  | nil => intro m _ _; simp [jobDict_nil]
  | cons j L ih =>
    intro m hfresh hnd
    rw [List.map_cons, List.nodup_cons] at hnd
    have hfresh' : ∀ j' ∈ L, j'._id ∉ dictKeys (m ++ [(j._id, j)]) := by
      intro j' hj' hmem
      rw [dictKeys_append] at hmem
      rcases List.mem_append.mp hmem with hm | hm
      · exact hfresh j' (List.mem_cons_of_mem _ hj') hm
      · have he : j'._id = j._id := by simpa [dictKeys] using hm
        exact hnd.1 (he ▸ List.mem_map_of_mem (fun j => j._id) hj')
    rw [jobDict_cons, dictInsert_not_mem m j._id j (hfresh j (List.mem_cons_self _ _)),
      ih _ hfresh' hnd.2]
    simp

theorem dictValues_map_pair (m : List (PyStr × Job)) (h : dictWF m) :
    (dictValues m).map (fun j => (j._id, j)) = m := by
  induction m with
  | nil => rfl
  | cons p rest ih =>
    rw [dictValues_cons, List.map_cons, h p (List.mem_cons_self _ _),
      ih (fun q hq => h q (List.mem_cons_of_mem _ hq))]

theorem dictValues_map_id (m : List (PyStr × Job)) (h : dictWF m) :
    (dictValues m).map (fun j => j._id) = dictKeys m := by
  induction m with
  | nil => rfl
  | cons p rest ih =>
    rw [dictValues_cons, List.map_cons, dictKeys_cons, h p (List.mem_cons_self _ _),
      ih (fun q hq => h q (List.mem_cons_of_mem _ hq))]

theorem jobDict_dictValues_self (m : List (PyStr × Job)) (hwf : dictWF m)
    (hnd : (dictKeys m).Nodup) : jobDict (dictValues m) [] = m := by
  have h1 : ∀ j ∈ dictValues m, j._id ∉ dictKeys ([] : List (PyStr × Job)) := by
    intro j _ hmem
    cases hmem
  have h2 : ((dictValues m).map (fun j => j._id)).Nodup := by
    rw [dictValues_map_id m hwf]; exact hnd
  rw [jobDict_fresh (dictValues m) [] h1 h2, List.nil_append, dictValues_map_pair m hwf]

theorem mem_dictValues_insert (m : List (PyStr × Job)) (k : PyStr) (x v : Job)
    (h : v ∈ dictValues (dictInsert m k x)) : v ∈ dictValues m ∨ v = x := by
  induction m with
  | nil =>
    right
    simpa [dictInsert, dictValues] using h
  | cons p rest ih =>
    obtain ⟨k', v'⟩ := p
    by_cases hk : k' = k
    · simp only [dictInsert, if_pos hk, dictValues_cons] at h
      rcases List.mem_cons.mp h with rfl | h'
      · right; rfl
      · left; rw [dictValues_cons]; exact List.mem_cons_of_mem _ h'
    · simp only [dictInsert, if_neg hk, dictValues_cons] at h
      rcases List.mem_cons.mp h with rfl | h'
      · left; rw [dictValues_cons]; exact List.mem_cons_self _ _
      · rcases ih h' with hm | hx
        · left; rw [dictValues_cons]; exact List.mem_cons_of_mem _ hm
        · right; exact hx

theorem mem_dictValues_jobDict (B : List Job) : ∀ m v,
    v ∈ dictValues (jobDict B m) → v ∈ dictValues m ∨ v ∈ B := by
  induction B with
  | nil => intro m v h; left; exact h
  | cons j B ih =>
    intro m v h
    rw [jobDict_cons] at h
    rcases ih _ v h with hm | hb
    · rcases mem_dictValues_insert m j._id j v hm with hm' | rfl
      · left; exact hm'
      · right; exact List.mem_cons_self _ _
    · right; exact List.mem_cons_of_mem _ hb

theorem findById_dictValues (x : PyStr) : ∀ m : List (PyStr × Job), dictWF m →
    findById (dictValues m) x = dictFind m x := by
  intro m
  induction m with
  | nil => intro _; rfl
  | cons p rest ih =>
    intro hwf
    obtain ⟨k, v⟩ := p
    have hp : v._id = k := hwf (k, v) (List.mem_cons_self _ _)
    have ih' := ih (fun q hq => hwf q (List.mem_cons_of_mem _ hq))
    rw [dictValues_cons]
    simp only [findById] at ih' ⊢
    by_cases hx : k = x
    · rw [List.find?_cons_of_pos _ (by simp [hp, hx])]
      simp only [dictFind]
      rw [if_pos hx]
    · rw [List.find?_cons_of_neg _ (by simp [hp, hx]), ih']
      simp only [dictFind]
      rw [if_neg hx]

/-- Claim C5: when the persisted collection has a record for id x and the
new batch carries exactly one candidate with that id, the merged collection
maps x to the candidate record as a whole, so every field, including the
description and the pipeline flags, takes the value the candidate carries. -/
theorem C5_full_replacement (new_jobs existing_jobs : List Job) (x : PyStr) (j : Job)
    (_hex : ∃ e ∈ existing_jobs, e._id = x)
    (hnew : new_jobs.filter (fun j' => decide (j'._id = x)) = [j]) :
    findById (deduplicate_jobs new_jobs existing_jobs) x = some j := by
  have hwf : dictWF (jobDict new_jobs (jobDict existing_jobs [])) :=
    dictWF_jobDict new_jobs _ (dictWF_jobDict existing_jobs [] dictWF_nil)
  simp only [deduplicate_jobs]
  rw [findById_dictValues x _ hwf, dictFind_jobDict, foldl_if_filter, hnew]
  rfl

/-- Claim C5 witness: merging a fresh candidate for id x1 over a stored
record for x1 that was already tailored and drafted leaves exactly the
candidate, with its new description and its all-false pipeline flags. -/
theorem C5_witness :
    findById (deduplicate_jobs [jobNewC5] [jobOldC5]) (pyOfString "x1") = some jobNewC5 :=
  C5_full_replacement [jobNewC5] [jobOldC5] (pyOfString "x1") jobNewC5
    ⟨jobOldC5, by decide, by decide⟩ (by decide)

/-- Claim C6: merging the same batch twice into the same base collection
gives exactly the collection obtained by merging it once; no records are
duplicated and no drift occurs. -/
theorem C6_merge_idempotent (B E : List Job) :
    deduplicate_jobs B (deduplicate_jobs B E) = deduplicate_jobs B E := by
  simp only [deduplicate_jobs]
  set M := jobDict B (jobDict E []) with hM
  have hwfE : dictWF (jobDict E []) := dictWF_jobDict E [] dictWF_nil
  have hwfM : dictWF M := dictWF_jobDict B _ hwfE
  have hndE : (dictKeys (jobDict E [])).Nodup :=
    dictKeys_nodup_jobDict E [] List.nodup_nil
  have hndM : (dictKeys M).Nodup := dictKeys_nodup_jobDict B _ hndE
  rw [jobDict_dictValues_self M hwfM hndM]
  have hBM : jobDict B M = M := by
    apply dict_ext (jobDict B M) M (dictKeys_nodup_jobDict B M hndM)
    · exact dictKeys_jobDict_of_all_mem B M (fun j hj => id_mem_dictKeys_jobDict B _ j hj)
    · intro k
      have hMk : dictFind M k =
          B.foldl (fun acc j => if j._id = k then some j else acc)
            (dictFind (jobDict E []) k) := by
        rw [hM]
        exact dictFind_jobDict B (jobDict E []) k
      rw [dictFind_jobDict, foldl_if_filter, hMk, foldl_if_filter]
      cases hF : B.filter (fun j => decide (j._id = k)) with
      | nil => rfl
      | cons a F => exact foldl_some_const (a :: F) _ _ (by simp)
  rw [hBM]

theorem mem_insertByScoreDesc (j v : Job) : ∀ l : List Job,
    v ∈ insertByScoreDesc j l → v = j ∨ v ∈ l := by
  intro l
  induction l with
  | nil => intro h; left; simpa [insertByScoreDesc] using h
  | cons x xs ih =>
    intro h
    simp only [insertByScoreDesc] at h
    by_cases hc : x._relevance_score ≤ j._relevance_score
    · rw [if_pos hc] at h
      rcases List.mem_cons.mp h with rfl | h'
      · left; rfl
      · right; exact h'
    · rw [if_neg hc] at h
      rcases List.mem_cons.mp h with rfl | h'
      · right; exact List.mem_cons_self _ _
      · rcases ih h' with h'' | h''
        · left; exact h''
        · right; exact List.mem_cons_of_mem _ h''

theorem mem_sortByScoreDesc (v : Job) : ∀ l : List Job,
    v ∈ sortByScoreDesc l → v ∈ l := by
  intro l
  induction l with
  | nil => intro h; exact h
  | cons x xs ih =>
    intro h
    rcases mem_insertByScoreDesc x v (sortByScoreDesc xs) h with rfl | h'
    · exact List.mem_cons_self _ _
    · exact List.mem_cons_of_mem _ (ih h')

/-- Claim C7: starting from a persisted collection in which no record
scores below the configured floor, every record of the collection produced
by a scrape run scores at least the floor, because candidates below
MIN_RELEVANCE_SCORE are dropped before the in-run deduplication and the
merge. -/
theorem C7_floor_invariant (rows : List RawJob) (scraped_at scraped_date query : PyStr)
    (existing_jobs : List Job)
    (h : ∀ e ∈ existing_jobs, config.MIN_RELEVANCE_SCORE ≤ e._relevance_score) :
    ∀ j ∈ scrape_all_merge rows scraped_at scraped_date query existing_jobs,
      config.MIN_RELEVANCE_SCORE ≤ j._relevance_score := by
  intro j hj
  simp only [scrape_all_merge, deduplicate_jobs] at hj
  have hj' := mem_sortByScoreDesc j _ hj
  rcases mem_dictValues_jobDict _ _ j hj' with hm | hb
  · rcases mem_dictValues_jobDict _ _ j hm with hm' | he
    · cases hm'
    · exact h j he
  · simp only [scrape_new_jobs] at hb
    rcases mem_dictValues_jobDict _ _ j hb with hm' | hf
    · cases hm'
    · exact of_decide_eq_true (List.mem_filter.mp hf).2

set_option maxRecDepth 1000000 in
/-- Claim C7 witness: a run over one raw row whose record scores 61 merged
into the empty collection; the resulting record meets the floor of 30. -/
theorem C7_witness :
    config.MIN_RELEVANCE_SCORE ≤ (mkJob [] [] [] rawC7)._relevance_score :=
  C7_floor_invariant [rawC7] [] [] [] [] (fun e he => absurd he (List.not_mem_nil e))
    (mkJob [] [] [] rawC7) (by decide)

end Scout
